import Mathlib

/-!
Verification of the interaction-dynamics engine of the `cg_new` repository
(`core.py`, `run_single.py`) against its natural-language specification.

State coordinates are modelled as rational numbers; the uniform pseudo-random
draws consumed by the Python code (`random.random()`, `random.randrange`,
`random.choice`, `np.random.choice`, `np.random.beta`) are modelled as explicit
tape arguments, so every simulation function is a pure function of its
parameters, its seed-indexed tapes, and the initial data.
-/

namespace CGNew

/-- Distribution-parameter record passed to `initialize_state_vectors`
(python dict with keys `alpha`, `beta`, and — after the call — `m_dimensions`).
`m_dimensions := none` models a dict that does not yet carry that key. -/
structure InitialStateParams where
  alpha : ℚ
  beta : ℚ
  m_dimensions : Option ℕ
deriving DecidableEq, Repr

/-- `core.beta_extended`: draws an `n_agents × m_dimensions` matrix of
Beta-distributed values (here the tape `raw i j` stands for the `(i,j)`-th
Beta draw, which lies in `[0,1]`) and maps each through `x ↦ 2·x - 1`. -/
def beta_extended (n_agents : ℕ) (p : InitialStateParams) (raw : ℕ → ℕ → ℚ) :
    List (List ℚ) :=
  (List.range n_agents).map fun i =>
    (List.range (p.m_dimensions.getD 0)).map fun j => 2 * raw i j - 1

/-- `core.initialize_state_vectors`: writes `m_dimensions` into the passed
parameter record (the python code mutates the caller's dict in place;
modelled here by returning the updated record) and calls `beta_extended`. -/
def initialize_state_vectors (n_agents m_dimensions : ℕ)
    (p : InitialStateParams) (raw : ℕ → ℕ → ℚ) :
    List (List ℚ) × InitialStateParams :=
  let p2 := { p with m_dimensions := some m_dimensions }
  (beta_extended n_agents p2 raw, p2)

/-- `core.calculate_p_send` (Eq. 1): softmax of `beta * state_vector`.
`rexp` is the ℚ-valued stand-in for the transcendental `np.exp`; every
theorem below holds for an arbitrary such function. -/
def calculate_p_send (rexp : ℚ → ℚ) (state_vector : List ℚ) (beta : ℚ) :
    List ℚ :=
  let exp_values := state_vector.map fun x => rexp (beta * x)
  exp_values.map fun e => e / exp_values.sum

/-- `core.calculate_p_accept` (Eq. 2): logistic `1 / (1 + exp (-beta * sv[yi]))`. -/
def calculate_p_accept (rexp : ℚ → ℚ) (state_vector : List ℚ) (yi : ℕ)
    (beta : ℚ) : ℚ :=
  1 / (1 + rexp (-beta * state_vector.getD yi 0))

/-- `core.calculate_feedback` (Eq. 3): `u` is the `random.random()` draw;
with `u < epsilon` the feedback is overridden by `gamma`, otherwise it is `z`. -/
def calculate_feedback (z : ℚ) (epsilon gamma : ℚ) (u : ℚ) : ℚ :=
  if u < epsilon then gamma else z

/-- `core.update_sender_state` (Eq. 4a): EMA of the `yi` coordinate toward
the feedback `zij`, all other coordinates untouched (the python code copies
the vector, then assigns index `yi`). -/
def update_sender_state (state_vector : List ℚ) (yi : ℕ) (zij alpha : ℚ) :
    List ℚ :=
  state_vector.set yi ((1 - alpha) * state_vector.getD yi 0 + alpha * zij)

/-- `core.update_receiver_state` (Eq. 4b): on acceptance (`z = 1`) EMA toward
`+1`; on rejection, EMA toward the coordinate itself when `zeta = 0`, else
toward `eta * zeta^2 * (zeta - old)`. -/
def update_receiver_state (state_vector : List ℚ) (yi : ℕ) (z : ℤ)
    (alpha zeta eta : ℚ) : List ℚ :=
  let x := state_vector.getD yi 0
  if z = 1 then
    state_vector.set yi ((1 - alpha) * x + alpha * 1)
  else if zeta = 0 then
    state_vector.set yi ((1 - alpha) * x + alpha * x)
  else
    state_vector.set yi ((1 - alpha) * x + alpha * eta * zeta ^ 2 * (zeta - x))

/-- The per-coordinate decay formula of `core.apply_decay` (Eq. 7, line 74):
`(1 - alpha·sigma)·x - sigma·alpha`. -/
def decayCoord (x sigma alpha : ℚ) : ℚ :=
  (1 - alpha * sigma) * x - sigma * alpha

/-- Index-tracking recursion underlying `apply_decay`: the python for-loop
over `l in range(len(state))` that rewrites every index `l ≠ yi`. -/
def applyDecayAux (sigma alpha : ℚ) (yi : ℕ) : ℕ → List ℚ → List ℚ
  | _, [] => []
  | l, x :: xs =>
      (if l = yi then x else decayCoord x sigma alpha) ::
        applyDecayAux sigma alpha yi (l + 1) xs

/-- `core.apply_decay` (Eq. 7): decays every coordinate except `yi`. -/
def apply_decay (state_vector : List ℚ) (yi : ℕ) (sigma alpha : ℚ) : List ℚ :=
  applyDecayAux sigma alpha yi 0 state_vector

/-- The fields of `core.Config` consumed by the event loop of
`run_single.run_single_simulation`. -/
structure Config where
  n_agents : ℕ
  m_dimensions : ℕ
  timesteps : ℕ
  alpha : ℚ
  beta : ℚ
  epsilon : ℚ
  gamma : ℚ
  sigma : ℚ
  zeta : ℚ
  eta : ℚ
  save_history : Bool
  record_interval : ℕ
  random_sample_percentage : ℚ
deriving DecidableEq, Repr

/-- The pseudo-random draws one loop iteration of `run_single_simulation`
may consume, in program order: `senderD` models `random.randrange(n_agents)`
(reduced mod `n_agents`), `receiverD` models `random.choice(neighbors)`
(reduced mod the list length), `yiU` the uniform behind
`np.random.choice(m, p=p_send)` (inverse-CDF selection), `acceptU` the
acceptance draw, `feedbackU` the `epsilon`-noise draw, `sampleU` the
random-history draw. -/
structure EventDraws where
  senderD : ℕ
  receiverD : ℕ
  yiU : ℚ
  acceptU : ℚ
  feedbackU : ℚ
  sampleU : ℚ
deriving DecidableEq, Repr

/-- Inverse-CDF selection from a probability vector, modelling
`np.random.choice(len p, p = p)` driven by the uniform draw `u`. -/
def categorical (u : ℚ) : List ℚ → ℕ
  | [] => 0
  | q :: qs => if u < q then 0 else categorical (u - q) qs + 1

/-- The mutable data of one run: the live state matrix plus the two
history buffers `sampled_states['regular']` and `sampled_states['random']`. -/
structure SimState where
  states : List (List ℚ)
  regular : List (ℕ × List (List ℚ))
  randomS : List (ℕ × ℕ × List ℚ)
deriving DecidableEq, Repr

/-- `sender = random.randrange(config.n_agents)` (run_single.py line 35). -/
def eventSender (cfg : Config) (d : EventDraws) : ℕ :=
  d.senderD % cfg.n_agents

/-- `receiver = random.choice(neighbors[sender])` (line 38). -/
def eventReceiver (nbrs : List ℕ) (d : EventDraws) : ℕ :=
  nbrs.getD (d.receiverD % nbrs.length) 0

/-- `yi = np.random.choice(m_dimensions, p=p_send)` (lines 45–46). -/
def eventYi (rexp : ℚ → ℚ) (cfg : Config) (sender_state : List ℚ)
    (d : EventDraws) : ℕ :=
  categorical d.yiU (calculate_p_send rexp sender_state cfg.beta)

/-- `z = 1 if random.random() < p_accept else -1` (lines 47–48). -/
def eventZ (rexp : ℚ → ℚ) (cfg : Config) (receiver_state : List ℚ) (yi : ℕ)
    (d : EventDraws) : ℤ :=
  if d.acceptU < calculate_p_accept rexp receiver_state yi cfg.beta then 1
  else -1

/-- The post-event state matrix of one executed event (lines 40–60): the two
updated vectors written back over the drawn sender and receiver rows. -/
def eventStates (rexp : ℚ → ℚ) (cfg : Config) (sender receiver : ℕ)
    (d : EventDraws) (states : List (List ℚ)) : List (List ℚ) :=
  let sender_state := states.getD sender []
  let receiver_state := states.getD receiver []
  let yi := eventYi rexp cfg sender_state d
  let z := eventZ rexp cfg receiver_state yi d
  let zij := calculate_feedback (z : ℚ) cfg.epsilon cfg.gamma d.feedbackU
  let new_sender := update_sender_state sender_state yi zij cfg.alpha
  let new_receiver :=
    apply_decay (update_receiver_state receiver_state yi z cfg.alpha
      cfg.zeta cfg.eta) yi cfg.sigma cfg.alpha
  (states.set sender new_sender).set receiver new_receiver

/-- One iteration of the event loop of `run_single.run_single_simulation`
(lines 33–67): sender draw, neighbour check and possible skip, receiver
draw, the state updates and write-back, and the two conditional history
appends. -/
def simStep (rexp : ℚ → ℚ) (cfg : Config) (nb : ℕ → List ℕ) (t : ℕ)
    (d : EventDraws) (st : SimState) : SimState :=
  let sender := eventSender cfg d
  let nbrs := nb sender
  if nbrs = [] then st
  else
    let receiver := eventReceiver nbrs d
    let states2 := eventStates rexp cfg sender receiver d st.states
    let st2 : SimState := ⟨states2, st.regular, st.randomS⟩
    if cfg.save_history then
      let st3 : SimState :=
        if t % cfg.record_interval = 0 then
          ⟨states2, st2.regular ++ [(t, states2)], st2.randomS⟩
        else st2
      if d.sampleU < cfg.random_sample_percentage then
        ⟨st3.states, st3.regular, st3.randomS ++ [(t, sender, states2.getD sender [])]⟩
      else st3
    else st2

/-- The event loop: `timesteps` sequential events starting from the initial
matrix, with empty history buffers. -/
def runLoop (rexp : ℚ → ℚ) (cfg : Config) (nb : ℕ → List ℕ)
    (tape : ℕ → EventDraws) (init : List (List ℚ)) (timesteps : ℕ) : SimState :=
  (List.range timesteps).foldl (fun st t => simStep rexp cfg nb t (tape t) st)
    ⟨init, [], []⟩

/-- Iterated application of the decay formula to one coordinate. -/
def decayIter (sigma alpha : ℚ) (n : ℕ) (x : ℚ) : ℚ :=
  (fun y => decayCoord y sigma alpha)^[n] x

/-- All coordinates of one state vector lie in `[-1, 1]`. -/
def BoundedRow (r : List ℚ) : Prop :=
  ∀ x ∈ r, -1 ≤ x ∧ x ≤ 1

/-- All entries of a state matrix lie in `[-1, 1]`. -/
def Bounded (m : List (List ℚ)) : Prop :=
  ∀ r ∈ m, BoundedRow r

/-- The full parameter record consumed by `run_single_simulation` (the
fields of `config.SIM_PARAMS`, with the graph parameters and the
initial-state distribution parameters inlined). -/
structure Params where
  n_agents : ℕ
  m_dimensions : ℕ
  timesteps : ℕ
  alpha : ℚ
  beta : ℚ
  epsilon : ℚ
  gamma : ℚ
  sigma : ℚ
  zeta : ℚ
  eta : ℚ
  m_edges : ℤ
  p_triad : ℚ
  save_history : Bool
  record_interval : ℕ
  random_sample_percentage : ℚ
  init_alpha : ℚ
  init_beta : ℚ
  seed : ℕ
deriving DecidableEq, Repr

/-- The `core.Config` fields consumed by the event loop, read off a
parameter record (`core.Config.__init__`). -/
def Params.toConfig (p : Params) : Config :=
  ⟨p.n_agents, p.m_dimensions, p.timesteps, p.alpha, p.beta, p.epsilon,
   p.gamma, p.sigma, p.zeta, p.eta, p.save_history, p.record_interval,
   p.random_sample_percentage⟩

/-- The fatal error of the topology generator: the spec's
`InvalidTopologyParameters`, raised by the underlying library call
`nx.powerlaw_cluster_graph(n, m, p, seed)` as a `NetworkXError`. -/
inductive SimError where
  | invalidTopologyParameters
deriving DecidableEq, Repr

/-- The pipeline of `run_single.run_single_simulation` (lines 19–81):
the precondition check of `nx.powerlaw_cluster_graph` — which raises when
`m < 1` or `n < m`, or when `p` lies outside `[0,1]` — then state
initialization, then the event loop.  The graph's neighbour index and the
random tapes are deterministic functions of the seed (`nbGen`, `raw`,
`tape` model the seeded pseudo-random generators). -/
def full_run (rexp : ℚ → ℚ) (nbGen : ℕ → ℕ → List ℕ) (raw : ℕ → ℕ → ℕ → ℚ)
    (tape : ℕ → ℕ → EventDraws) (p : Params) : Except SimError SimState :=
  if p.m_edges < 1 ∨ (p.n_agents : ℤ) < p.m_edges then
    .error .invalidTopologyParameters
  else if p.p_triad > 1 ∨ p.p_triad < 0 then
    .error .invalidTopologyParameters
  else
    let ip := initialize_state_vectors p.n_agents p.m_dimensions
      ⟨p.init_alpha, p.init_beta, none⟩ (raw p.seed)
    .ok (runLoop rexp p.toConfig (nbGen p.seed) (tape p.seed) ip.1 p.timesteps)

/-- Concrete parameter record used by witnesses: `n_agents = m_edges = 1`,
`timesteps = 0`. -/
def paramsW : Params :=
  ⟨1, 1, 0, 1, 1, 0, -1, 0, 0, 1, 1, 0, false, 5, 0, 5, 5, 42⟩

/-- Concrete parameter record with a non-positive `m_edges`. -/
def paramsWbad : Params :=
  ⟨1, 1, 0, 1, 1, 0, -1, 0, 0, 1, 0, 0, false, 5, 0, 5, 5, 42⟩

/-- Concrete engine configuration used by witnesses (history off). -/
def cfgW : Config :=
  ⟨1, 1, 0, 1, 1, 0, -1, 0, 0, 1, false, 5, 0⟩

/-- Concrete engine configuration with history recording enabled. -/
def cfgW6 : Config :=
  ⟨1, 1, 1, 1, 1, 0, -1, 0, 0, 1, true, 5, 0⟩

/-! Helper lemmas about `List.set` and `List.getD`. -/

theorem getD_set_self {α : Type} (l : List α) (i : ℕ) (v d : α)
    (h : i < l.length) : (l.set i v).getD i d = v := by
  simp [List.getD_eq_getElem?_getD, List.getElem?_set_self h]

theorem getD_set_ne {α : Type} (l : List α) (i j : ℕ) (v d : α) (h : j ≠ i) :
    (l.set i v).getD j d = l.getD j d := by
  simp [List.getD_eq_getElem?_getD, List.getElem?_set_ne (Ne.symm h)]

theorem set_getD_self (l : List ℚ) (i : ℕ) : l.set i (l.getD i 0) = l := by
  induction l generalizing i with
  | nil => rfl
  | cons x xs ih =>
      cases i with
      | zero => rfl
      | succ n =>
          show x :: xs.set n ((x :: xs).getD (n + 1) 0) = x :: xs
          rw [List.getD_cons_succ, ih n]

/-- C7: when the receiver rejects (`z = -1`) and `zeta = 0`, the rejection
update writes `(1-alpha)·x + alpha·x = x` back into coordinate `yi`, so the
receiver's state vector is unchanged, for every `alpha` and every state. -/
theorem reject_update_identity (sv : List ℚ) (yi : ℕ) (alpha eta : ℚ) :
    update_receiver_state sv yi (-1) alpha 0 eta = sv := by
  simp only [update_receiver_state]
  rw [if_pos trivial]
  have e : (1 - alpha) * sv.getD yi 0 + alpha * sv.getD yi 0 = sv.getD yi 0 := by
    ring
  rw [e, set_getD_self]
  rw [if_neg (show ¬((-1 : ℤ) = 1) by decide)]

/-- C9 (amended): `initialize_state_vectors` mutates the caller's
distribution-parameter record by writing `m_dimensions` into it; the
`alpha` and `beta` fields are unchanged, and there is no other effect
beyond consuming the random tape. -/
theorem initialize_sets_m_dimensions (n_agents m_dimensions : ℕ)
    (p : InitialStateParams) (raw : ℕ → ℕ → ℚ) :
    (initialize_state_vectors n_agents m_dimensions p raw).2 =
      ⟨p.alpha, p.beta, some m_dimensions⟩ := rfl

/-- C9 counterexample: a distribution-parameter record that does not carry
the `m_dimensions` key is changed by the call. -/
theorem initialize_mutates_params :
    (initialize_state_vectors 2 3 ⟨5, 5, none⟩ (fun _ _ => 0)).2 ≠
      (⟨5, 5, none⟩ : InitialStateParams) := by
  simp [initialize_state_vectors]

/-- C3: after the sender update, coordinate `yi` equals
`(1-alpha)·old + alpha·feedback`, where the feedback is `gamma` when the
noise draw `u` falls below `epsilon` and the acceptance value `z`
otherwise; every other coordinate is unchanged. -/
theorem sender_update_spec (sv : List ℚ) (yi : ℕ) (z epsilon gamma u alpha : ℚ)
    (h : yi < sv.length) :
    (update_sender_state sv yi (calculate_feedback z epsilon gamma u) alpha).getD yi 0
        = (1 - alpha) * sv.getD yi 0 +
            alpha * (if u < epsilon then gamma else z) ∧
    ∀ j, j ≠ yi →
      (update_sender_state sv yi (calculate_feedback z epsilon gamma u) alpha).getD j 0
        = sv.getD j 0 := by
  constructor
  · unfold update_sender_state calculate_feedback
    exact getD_set_self sv yi _ 0 h
  · intro j hj
    unfold update_sender_state
    exact getD_set_ne sv yi j _ 0 hj

/-- C3 witness: concrete instance with `sv = [0,1]`, `yi = 0`, `z = 1`,
`epsilon = 0`, `gamma = -1`, `u = 0`, `alpha = 1`. -/
theorem sender_update_spec_witness :
    0 < [(0:ℚ), 1].length ∧
    ((update_sender_state [(0:ℚ), 1] 0 (calculate_feedback 1 0 (-1) 0) 1).getD 0 0
        = (1 - 1) * ([(0:ℚ), 1].getD 0 0) +
            1 * (if (0:ℚ) < 0 then -1 else 1) ∧
     ∀ j, j ≠ 0 →
      (update_sender_state [(0:ℚ), 1] 0 (calculate_feedback 1 0 (-1) 0) 1).getD j 0
        = [(0:ℚ), 1].getD j 0) :=
  ⟨by decide, sender_update_spec [0, 1] 0 1 0 (-1) 0 1 (by decide)⟩

/-- C4: for `sigma, alpha ∈ (0,1)` and `x ∈ (-1,1]`, one application of the
decay map strictly decreases the distance to `-1`, repeated applications
decrease the coordinate strictly monotonically while staying above `-1`,
and `-1` is a fixed point of the map. -/
theorem decay_toward_neg_one (sigma alpha x : ℚ)
    (hs0 : 0 < sigma) (hs1 : sigma < 1) (ha0 : 0 < alpha) (ha1 : alpha < 1)
    (hx0 : -1 < x) (hx1 : x ≤ 1) :
    |decayCoord x sigma alpha - (-1)| < |x - (-1)| ∧
    (∀ n, decayIter sigma alpha (n + 1) x < decayIter sigma alpha n x) ∧
    (∀ n, -1 < decayIter sigma alpha n x) ∧
    decayCoord (-1) sigma alpha = -1 := by
  have hprod : 0 < alpha * sigma := mul_pos ha0 hs0
  have hlt1 : alpha * sigma < 1 := by nlinarith
  have step : ∀ y, -1 < y →
      decayCoord y sigma alpha < y ∧ -1 < decayCoord y sigma alpha := by
    intro y hy
    have e1 : 0 < alpha * sigma * (y + 1) := mul_pos hprod (by linarith)
    have e2 : 0 < (1 - alpha * sigma) * (y + 1) :=
      mul_pos (by linarith) (by linarith)
    unfold decayCoord
    constructor <;> nlinarith
  have iterLow : ∀ n, -1 < decayIter sigma alpha n x := by
    intro n
    induction n with
    | zero => simpa [decayIter] using hx0
    | succ k ih =>
        have h2 := (step _ ih).2
        simpa [decayIter, Function.iterate_succ_apply'] using h2
  have iterMono : ∀ n,
      decayIter sigma alpha (n + 1) x < decayIter sigma alpha n x := by
    intro n
    have h1 := (step _ (iterLow n)).1
    simpa [decayIter, Function.iterate_succ_apply'] using h1
  refine ⟨?_, iterMono, iterLow, by unfold decayCoord; ring⟩
  have hd := step x hx0
  rw [sub_neg_eq_add, sub_neg_eq_add, abs_of_pos (by linarith [hd.2]),
    abs_of_pos (by linarith)]
  linarith [hd.1]

/-- C4 witness: concrete instance with `sigma = alpha = 1/2`, `x = 0`. -/
theorem decay_toward_neg_one_witness :
    ((0:ℚ) < 1/2 ∧ (1:ℚ)/2 < 1 ∧ (-1:ℚ) < 0 ∧ (0:ℚ) ≤ 1) ∧
    (|decayCoord 0 (1/2) (1/2) - (-1)| < |(0:ℚ) - (-1)| ∧
     (∀ n, decayIter (1/2) (1/2) (n + 1) 0 < decayIter (1/2) (1/2) n 0) ∧
     (∀ n, -1 < decayIter (1/2) (1/2) n 0) ∧
     decayCoord (-1) (1/2) (1/2) = -1) :=
  ⟨⟨by norm_num, by norm_num, by norm_num, by norm_num⟩,
   decay_toward_neg_one (1/2) (1/2) 0 (by norm_num) (by norm_num)
     (by norm_num) (by norm_num) (by norm_num) (by norm_num)⟩

/-! Boundedness machinery for the state-matrix invariant. -/

theorem boundedRow_getD (r : List ℚ) (h : BoundedRow r) (i : ℕ) :
    -1 ≤ r.getD i 0 ∧ r.getD i 0 ≤ 1 := by
  induction r generalizing i with
  | nil => exact ⟨by norm_num, by norm_num⟩
  | cons x xs ih =>
      cases i with
      | zero => exact h x (by simp)
      | succ n =>
          rw [List.getD_cons_succ]
          exact ih (fun y hy => h y (by simp [hy])) n

theorem bounded_getD_row (m : List (List ℚ)) (h : Bounded m) (i : ℕ) :
    BoundedRow (m.getD i []) := by
  induction m generalizing i with
  | nil => intro x hx; simp at hx
  | cons r rs ih =>
      cases i with
      | zero => exact h r (by simp)
      | succ n => exact ih (fun s hs => h s (by simp [hs])) n

theorem bounded_set (m : List (List ℚ)) (i : ℕ) (r : List ℚ)
    (hm : Bounded m) (hr : BoundedRow r) : Bounded (m.set i r) := by
  intro s hs
  rcases List.mem_or_eq_of_mem_set hs with h | h
  · exact hm s h
  · exact h ▸ hr

theorem ema_bounds (alpha x w : ℚ) (h1 : 0 ≤ alpha) (h2 : alpha ≤ 1)
    (h3 : -1 ≤ x) (h4 : x ≤ 1) (h5 : -1 ≤ w) (h6 : w ≤ 1) :
    -1 ≤ (1 - alpha) * x + alpha * w ∧ (1 - alpha) * x + alpha * w ≤ 1 := by
  constructor <;> nlinarith

theorem decayCoord_bounds (x sigma alpha : ℚ) (h1 : 0 ≤ alpha) (h2 : alpha ≤ 1)
    (hs1 : 0 ≤ sigma) (hs2 : sigma ≤ 1) (h3 : -1 ≤ x) (h4 : x ≤ 1) :
    -1 ≤ decayCoord x sigma alpha ∧ decayCoord x sigma alpha ≤ 1 := by
  have hp : 0 ≤ alpha * sigma := mul_nonneg h1 hs1
  have hq : alpha * sigma ≤ 1 := by nlinarith
  have e1 : 0 ≤ (1 - alpha * sigma) * (x + 1) :=
    mul_nonneg (by linarith) (by linarith)
  have e2 : 0 ≤ (1 - alpha * sigma) * (1 - x) :=
    mul_nonneg (by linarith) (by linarith)
  unfold decayCoord
  constructor <;> nlinarith

theorem feedback_bounds (z epsilon gamma u : ℚ) (hz1 : -1 ≤ z) (hz2 : z ≤ 1)
    (hg1 : -1 ≤ gamma) (hg2 : gamma ≤ 1) :
    -1 ≤ calculate_feedback z epsilon gamma u ∧
      calculate_feedback z epsilon gamma u ≤ 1 := by
  unfold calculate_feedback
  by_cases h : u < epsilon
  · rw [if_pos h]; exact ⟨hg1, hg2⟩
  · rw [if_neg h]; exact ⟨hz1, hz2⟩

theorem eventZ_bounds (rexp : ℚ → ℚ) (cfg : Config) (rs : List ℚ) (yi : ℕ)
    (d : EventDraws) :
    -1 ≤ ((eventZ rexp cfg rs yi d : ℤ) : ℚ) ∧
      ((eventZ rexp cfg rs yi d : ℤ) : ℚ) ≤ 1 := by
  unfold eventZ
  by_cases h : d.acceptU < calculate_p_accept rexp rs yi cfg.beta
  · rw [if_pos h]; norm_num
  · rw [if_neg h]; norm_num

theorem update_sender_bounded (sv : List ℚ) (yi : ℕ) (zij alpha : ℚ)
    (h1 : 0 ≤ alpha) (h2 : alpha ≤ 1) (hz1 : -1 ≤ zij) (hz2 : zij ≤ 1)
    (hrow : BoundedRow sv) :
    BoundedRow (update_sender_state sv yi zij alpha) := by
  intro y hy
  simp only [update_sender_state] at hy
  rcases List.mem_or_eq_of_mem_set hy with h | h
  · exact hrow y h
  · subst h
    have hx := boundedRow_getD sv hrow yi
    exact ema_bounds alpha _ zij h1 h2 hx.1 hx.2 hz1 hz2

theorem update_receiver_bounded (sv : List ℚ) (yi : ℕ) (z : ℤ) (alpha eta : ℚ)
    (h1 : 0 ≤ alpha) (h2 : alpha ≤ 1) (hrow : BoundedRow sv) :
    BoundedRow (update_receiver_state sv yi z alpha 0 eta) := by
  have hx := boundedRow_getD sv hrow yi
  intro y hy
  simp only [update_receiver_state] at hy
  by_cases hz : z = 1
  · rw [if_pos hz] at hy
    rcases List.mem_or_eq_of_mem_set hy with h | h
    · exact hrow y h
    · subst h
      exact ema_bounds alpha _ 1 h1 h2 hx.1 hx.2 (by norm_num) (by norm_num)
  · rw [if_neg hz, if_pos trivial] at hy
    rcases List.mem_or_eq_of_mem_set hy with h | h
    · exact hrow y h
    · subst h
      constructor <;> nlinarith [hx.1, hx.2]

theorem applyDecayAux_bounded (sigma alpha : ℚ) (yi : ℕ)
    (h1 : 0 ≤ alpha) (h2 : alpha ≤ 1) (hs1 : 0 ≤ sigma) (hs2 : sigma ≤ 1)
    (sv : List ℚ) : ∀ k : ℕ, BoundedRow sv →
      BoundedRow (applyDecayAux sigma alpha yi k sv) := by
  induction sv with
  | nil => intro k _ y hy; simp [applyDecayAux] at hy
  | cons x xs ih =>
      intro k hrow y hy
      simp only [applyDecayAux] at hy
      rcases List.mem_cons.mp hy with h | h
      · by_cases hk : k = yi
        · rw [if_pos hk] at h
          exact h ▸ hrow x (by simp)
        · rw [if_neg hk] at h
          have hx := hrow x (by simp)
          exact h ▸ decayCoord_bounds x sigma alpha h1 h2 hs1 hs2 hx.1 hx.2
      · exact ih (k + 1) (fun z hz => hrow z (by simp [hz])) y h

theorem apply_decay_bounded (sv : List ℚ) (yi : ℕ) (sigma alpha : ℚ)
    (h1 : 0 ≤ alpha) (h2 : alpha ≤ 1) (hs1 : 0 ≤ sigma) (hs2 : sigma ≤ 1)
    (hrow : BoundedRow sv) : BoundedRow (apply_decay sv yi sigma alpha) :=
  applyDecayAux_bounded sigma alpha yi h1 h2 hs1 hs2 sv 0 hrow

theorem eventStates_bounded (rexp : ℚ → ℚ) (cfg : Config)
    (sender receiver : ℕ) (d : EventDraws) (states : List (List ℚ))
    (hγ1 : -1 ≤ cfg.gamma) (hγ2 : cfg.gamma ≤ 1)
    (hα1 : 0 ≤ cfg.alpha) (hα2 : cfg.alpha ≤ 1)
    (hσ1 : 0 ≤ cfg.sigma) (hσ2 : cfg.sigma ≤ 1) (hζ : cfg.zeta = 0)
    (h : Bounded states) :
    Bounded (eventStates rexp cfg sender receiver d states) := by
  have hsrow := bounded_getD_row states h sender
  have hrrow := bounded_getD_row states h receiver
  simp only [eventStates]
  rw [hζ]
  have hzb := eventZ_bounds rexp cfg (states.getD receiver [])
    (eventYi rexp cfg (states.getD sender []) d) d
  have hfb := feedback_bounds
    ((eventZ rexp cfg (states.getD receiver [])
      (eventYi rexp cfg (states.getD sender []) d) d : ℤ) : ℚ)
    cfg.epsilon cfg.gamma d.feedbackU hzb.1 hzb.2 hγ1 hγ2
  exact bounded_set _ receiver _
    (bounded_set _ sender _ h
      (update_sender_bounded _ _ _ _ hα1 hα2 hfb.1 hfb.2 hsrow))
    (apply_decay_bounded _ _ _ _ hα1 hα2 hσ1 hσ2
      (update_receiver_bounded _ _ _ _ _ hα1 hα2 hrrow))

theorem simStep_bounded (rexp : ℚ → ℚ) (cfg : Config) (nb : ℕ → List ℕ)
    (t : ℕ) (d : EventDraws) (st : SimState)
    (hγ1 : -1 ≤ cfg.gamma) (hγ2 : cfg.gamma ≤ 1)
    (hα1 : 0 ≤ cfg.alpha) (hα2 : cfg.alpha ≤ 1)
    (hσ1 : 0 ≤ cfg.sigma) (hσ2 : cfg.sigma ≤ 1) (hζ : cfg.zeta = 0)
    (h : Bounded st.states) :
    Bounded (simStep rexp cfg nb t d st).states := by
  simp only [simStep]
  by_cases hnb : nb (eventSender cfg d) = []
  · rw [if_pos hnb]; exact h
  · rw [if_neg hnb]
    have hb := eventStates_bounded rexp cfg (eventSender cfg d)
      (eventReceiver (nb (eventSender cfg d)) d) d st.states
      hγ1 hγ2 hα1 hα2 hσ1 hσ2 hζ h
    split_ifs <;> exact hb

theorem runLoop_succ (rexp : ℚ → ℚ) (cfg : Config) (nb : ℕ → List ℕ)
    (tape : ℕ → EventDraws) (init : List (List ℚ)) (t : ℕ) :
    runLoop rexp cfg nb tape init (t + 1) =
      simStep rexp cfg nb t (tape t) (runLoop rexp cfg nb tape init t) := by
  unfold runLoop
  rw [List.range_succ, List.foldl_append]
  rfl

theorem beta_extended_bounded (n : ℕ) (p : InitialStateParams)
    (raw : ℕ → ℕ → ℚ) (hraw : ∀ i j, 0 ≤ raw i j ∧ raw i j ≤ 1) :
    Bounded (beta_extended n p raw) := by
  intro r hr
  simp only [beta_extended, List.mem_map] at hr
  obtain ⟨i, _, rfl⟩ := hr
  intro x hx
  simp only [List.mem_map] at hx
  obtain ⟨j, _, rfl⟩ := hx
  have hij := hraw i j
  constructor <;> linarith [hij.1, hij.2]

/-- C1 (amended): for `gamma ∈ [-1,1]`, `alpha ∈ [0,1]`, and additionally
`sigma ∈ [0,1]` and `zeta = 0`, the initial matrix produced by the
Beta-draw initializer has all entries in `[-1,1]`, and the state matrix of
the run has all entries in `[-1,1]` after every event.  (Without the extra
restrictions the invariant fails: see the counterexample.) -/
theorem run_state_bounded (rexp : ℚ → ℚ) (cfg : Config) (nb : ℕ → List ℕ)
    (tape : ℕ → EventDraws) (p : InitialStateParams) (braw : ℕ → ℕ → ℚ)
    (n : ℕ)
    (hγ1 : -1 ≤ cfg.gamma) (hγ2 : cfg.gamma ≤ 1)
    (hα1 : 0 ≤ cfg.alpha) (hα2 : cfg.alpha ≤ 1)
    (hσ1 : 0 ≤ cfg.sigma) (hσ2 : cfg.sigma ≤ 1)
    (hζ : cfg.zeta = 0)
    (hraw : ∀ i j, 0 ≤ braw i j ∧ braw i j ≤ 1) :
    Bounded (beta_extended n p braw) ∧
    ∀ t, Bounded ((runLoop rexp cfg nb tape (beta_extended n p braw) t).states) := by
  have hb := beta_extended_bounded n p braw hraw
  refine ⟨hb, fun t => ?_⟩
  induction t with
  | zero => exact hb
  | succ k ih =>
      rw [runLoop_succ]
      exact simStep_bounded rexp cfg nb k (tape k) _
        hγ1 hγ2 hα1 hα2 hσ1 hσ2 hζ ih

/-- C1 counterexample: with `alpha = 1 ∈ [0,1]`, the rejection update with
`zeta = 2, eta = 1` maps the in-bounds vector `[0]` to `[8]`, and the decay
update with `sigma = 3` maps the in-bounds vector `[1, 0]` (attended
dimension `yi = 1`) to `[-5, 0]`: the per-event updates do not map
`[-1,1]`-matrices to `[-1,1]`-matrices without restricting `zeta` and
`sigma`. -/
theorem receiver_update_escapes :
    BoundedRow [(0:ℚ)] ∧
    update_receiver_state [0] 0 (-1) 1 2 1 = [8] ∧ ¬ BoundedRow [(8:ℚ)] ∧
    BoundedRow [(1:ℚ), 0] ∧
    apply_decay [1, 0] 1 3 1 = [-5, 0] ∧ ¬ BoundedRow [(-5:ℚ), 0] := by
  refine ⟨?_, ?_, ?_, ?_, ?_, ?_⟩
  · intro x hx
    simp at hx
    subst hx
    norm_num
  · norm_num [update_receiver_state]
  · intro h
    have h8 := h 8 (by simp)
    norm_num at h8
  · intro x hx
    simp at hx
    rcases hx with h | h <;> subst h <;> norm_num
  · norm_num [apply_decay, applyDecayAux, decayCoord]
  · intro h
    have h5 := h (-5) (by simp)
    norm_num at h5

/-- C1 witness: the amended invariant instantiated at the concrete
configuration `cfgW` and the constant Beta tape `1`. -/
theorem run_state_bounded_witness :
    (-1 ≤ cfgW.gamma ∧ cfgW.gamma ≤ 1 ∧ 0 ≤ cfgW.alpha ∧ cfgW.alpha ≤ 1 ∧
     0 ≤ cfgW.sigma ∧ cfgW.sigma ≤ 1 ∧ cfgW.zeta = 0 ∧
     (∀ i j : ℕ, 0 ≤ (fun _ _ => (1:ℚ)) i j ∧ (fun _ _ => (1:ℚ)) i j ≤ 1)) ∧
    (Bounded (beta_extended 1 ⟨5, 5, some 1⟩ (fun _ _ => 1)) ∧
     ∀ t, Bounded ((runLoop (fun _ => 1) cfgW (fun _ => [])
        (fun _ => ⟨0, 0, 0, 0, 0, 0⟩)
        (beta_extended 1 ⟨5, 5, some 1⟩ (fun _ _ => 1)) t).states)) :=
  ⟨⟨by norm_num [cfgW], by norm_num [cfgW], by norm_num [cfgW],
    by norm_num [cfgW], by norm_num [cfgW], by norm_num [cfgW],
    by norm_num [cfgW], fun i j => ⟨by norm_num, by norm_num⟩⟩,
   run_state_bounded (fun _ => 1) cfgW (fun _ => [])
     (fun _ => ⟨0, 0, 0, 0, 0, 0⟩) ⟨5, 5, some 1⟩ (fun _ _ => 1) 1
     (by norm_num [cfgW]) (by norm_num [cfgW]) (by norm_num [cfgW])
     (by norm_num [cfgW]) (by norm_num [cfgW]) (by norm_num [cfgW])
     (by norm_num [cfgW]) (fun i j => ⟨by norm_num, by norm_num⟩)⟩

/-- C5: an event whose drawn sender has an empty neighbour list leaves the
state matrix and both history sequences unchanged, and the loop proceeds
to the next event: the run after `T + 1` events equals the run after `T`
events. -/
theorem skip_event (rexp : ℚ → ℚ) (cfg : Config) (nb : ℕ → List ℕ)
    (tape : ℕ → EventDraws) (init : List (List ℚ)) (st : SimState) (T : ℕ)
    (h : nb (eventSender cfg (tape T)) = []) :
    simStep rexp cfg nb T (tape T) st = st ∧
    runLoop rexp cfg nb tape init (T + 1) = runLoop rexp cfg nb tape init T := by
  have hs : ∀ s : SimState, simStep rexp cfg nb T (tape T) s = s := by
    intro s
    simp only [simStep]
    rw [if_pos h]
  exact ⟨hs st, by rw [runLoop_succ]; exact hs _⟩

/-- C5 witness: a run in which every agent has an empty neighbour list. -/
theorem skip_event_witness :
    ((fun _ : ℕ => ([] : List ℕ)) (eventSender cfgW ((fun _ : ℕ => (⟨0, 0, 0, 0, 0, 0⟩ : EventDraws)) 0)) = []) ∧
    (simStep (fun _ => 1) cfgW (fun _ => []) 0 ((fun _ : ℕ => (⟨0, 0, 0, 0, 0, 0⟩ : EventDraws)) 0) ⟨[[0]], [], []⟩ = ⟨[[0]], [], []⟩ ∧
     runLoop (fun _ => 1) cfgW (fun _ => []) (fun _ => ⟨0, 0, 0, 0, 0, 0⟩) [[0]] (0 + 1) =
       runLoop (fun _ => 1) cfgW (fun _ => []) (fun _ => ⟨0, 0, 0, 0, 0, 0⟩) [[0]] 0) :=
  ⟨rfl, skip_event (fun _ => 1) cfgW (fun _ => [])
    (fun _ => ⟨0, 0, 0, 0, 0, 0⟩) [[0]] ⟨[[0]], [], []⟩ 0 rfl⟩

/-- C6 (amended): with history recording enabled, on an event with
`t % record_interval = 0` whose drawn sender has a non-empty neighbour
list, the pair `(t, post-event state matrix)` is appended to the regular
history sequence.  (Events whose sender has no neighbours are skipped
before the trigger is evaluated and record nothing: see the
counterexample.) -/
theorem regular_snapshot (rexp : ℚ → ℚ) (cfg : Config) (nb : ℕ → List ℕ)
    (t : ℕ) (d : EventDraws) (st : SimState)
    (hsh : cfg.save_history = true) (ht : t % cfg.record_interval = 0)
    (hnb : nb (eventSender cfg d) ≠ []) :
    (simStep rexp cfg nb t d st).regular =
      st.regular ++ [(t, eventStates rexp cfg (eventSender cfg d)
        (eventReceiver (nb (eventSender cfg d)) d) d st.states)] := by
  simp only [simStep]
  rw [if_neg hnb, hsh]
  by_cases hs : d.sampleU < cfg.random_sample_percentage <;> simp [ht, hs]

/-- C6 witness: an executed recording event at `t = 0`. -/
theorem regular_snapshot_witness :
    (cfgW6.save_history = true ∧ 0 % cfgW6.record_interval = 0 ∧
     (fun _ : ℕ => [0]) (eventSender cfgW6 ⟨0, 0, 0, 0, 0, 0⟩) ≠ []) ∧
    (simStep (fun _ => 1) cfgW6 (fun _ => [0]) 0 ⟨0, 0, 0, 0, 0, 0⟩ ⟨[[0]], [], []⟩).regular =
      ([] : List (ℕ × List (List ℚ))) ++ [(0, eventStates (fun _ => 1) cfgW6
        (eventSender cfgW6 ⟨0, 0, 0, 0, 0, 0⟩)
        (eventReceiver ((fun _ : ℕ => [0]) (eventSender cfgW6 ⟨0, 0, 0, 0, 0, 0⟩)) ⟨0, 0, 0, 0, 0, 0⟩)
        ⟨0, 0, 0, 0, 0, 0⟩ [[0]])] :=
  ⟨⟨rfl, rfl, by simp⟩,
   regular_snapshot (fun _ => 1) cfgW6 (fun _ => [0]) 0 ⟨0, 0, 0, 0, 0, 0⟩
     ⟨[[0]], [], []⟩ rfl rfl (by simp)⟩

/-- C6 counterexample: history recording enabled, `0 % record_interval = 0`,
but the sender drawn at event `0` has no neighbours, so the event is
skipped and nothing is appended to the regular sequence — the regular
trigger is not evaluated on skipped events. -/
theorem regular_snapshot_missed :
    (runLoop (fun _ => 1) cfgW6 (fun _ => []) (fun _ => ⟨0, 0, 0, 0, 0, 0⟩)
      [[0]] 1).regular = [] ∧
    cfgW6.save_history = true ∧ 0 % cfgW6.record_interval = 0 := by
  refine ⟨?_, rfl, rfl⟩
  rw [runLoop_succ]
  rfl

/-- C10: on any event, every row of the state matrix other than the drawn
sender's row and the drawn receiver's row is unchanged. -/
theorem event_frame (rexp : ℚ → ℚ) (cfg : Config) (nb : ℕ → List ℕ) (t : ℕ)
    (d : EventDraws) (st : SimState) (a : ℕ)
    (hnb : nb (eventSender cfg d) ≠ [])
    (has : a ≠ eventSender cfg d)
    (har : a ≠ eventReceiver (nb (eventSender cfg d)) d) :
    (simStep rexp cfg nb t d st).states.getD a [] = st.states.getD a [] := by
  have hstates : (simStep rexp cfg nb t d st).states =
      eventStates rexp cfg (eventSender cfg d)
        (eventReceiver (nb (eventSender cfg d)) d) d st.states := by
    simp only [simStep]
    rw [if_neg hnb]
    by_cases hsv : cfg.save_history <;>
      by_cases h2 : t % cfg.record_interval = 0 <;>
      by_cases h3 : d.sampleU < cfg.random_sample_percentage <;>
      simp [hsv, h2, h3]
  rw [hstates]
  simp only [eventStates]
  rw [getD_set_ne _ _ _ _ _ har, getD_set_ne _ _ _ _ _ has]

/-- C10 witness: third-party row `a = 2` untouched by an executed event
between sender `0` and receiver `1`. -/
theorem event_frame_witness :
    ((fun _ : ℕ => [1]) (eventSender cfgW ⟨0, 0, 0, 0, 0, 0⟩) ≠ [] ∧
     2 ≠ eventSender cfgW ⟨0, 0, 0, 0, 0, 0⟩ ∧
     2 ≠ eventReceiver ((fun _ : ℕ => [1]) (eventSender cfgW ⟨0, 0, 0, 0, 0, 0⟩)) ⟨0, 0, 0, 0, 0, 0⟩) ∧
    (simStep (fun _ => 1) cfgW (fun _ => [1]) 0 ⟨0, 0, 0, 0, 0, 0⟩
      ⟨[[0], [0], [0]], [], []⟩).states.getD 2 [] = [[0], [0], [(0:ℚ)]].getD 2 [] :=
  ⟨⟨by simp, by decide, by decide⟩,
   event_frame (fun _ => 1) cfgW (fun _ => [1]) 0 ⟨0, 0, 0, 0, 0, 0⟩
     ⟨[[0], [0], [0]], [], []⟩ 2 (by simp) (by decide) (by decide)⟩

/-- C8 (amended): graph generation fails with the topology error (the
spec's `InvalidTopologyParameters`, the library's `NetworkXError`) exactly
under the library precondition `m_edges < 1 ∨ n_agents < m_edges` — so for
every non-positive `m_edges`, and whenever `m_edges` strictly exceeds
`n_agents` — and it does so for every initialization tape, i.e. before any
state matrix is produced.  The boundary case `m_edges = n_agents` is
accepted (see the counterexample). -/
theorem topology_guard (rexp : ℚ → ℚ) (nbGen : ℕ → ℕ → List ℕ)
    (raw : ℕ → ℕ → ℕ → ℚ) (tape : ℕ → ℕ → EventDraws) (p : Params)
    (h : p.m_edges < 1 ∨ (p.n_agents : ℤ) < p.m_edges) :
    full_run rexp nbGen raw tape p = .error .invalidTopologyParameters := by
  simp only [full_run]
  rw [if_pos h]

/-- C8 witness: `m_edges = 0` is rejected. -/
theorem topology_guard_witness :
    (paramsWbad.m_edges < 1 ∨ (paramsWbad.n_agents : ℤ) < paramsWbad.m_edges) ∧
    full_run (fun _ => 1) (fun _ _ => []) (fun _ _ _ => 1)
      (fun _ _ => ⟨0, 0, 0, 0, 0, 0⟩) paramsWbad =
        .error .invalidTopologyParameters :=
  ⟨Or.inl (by norm_num [paramsWbad]),
   topology_guard (fun _ => 1) (fun _ _ => []) (fun _ _ _ => 1)
     (fun _ _ => ⟨0, 0, 0, 0, 0, 0⟩) paramsWbad (Or.inl (by norm_num [paramsWbad]))⟩

/-- C8 counterexample: `m_edges = n_agents = 1` satisfies
`m_edges ≥ n_agents`, yet the run does not fail — the library guard is
`m_edges < 1 ∨ n_agents < m_edges`, which accepts the boundary
`m_edges = n_agents` and yields an edgeless graph. -/
theorem topology_m_eq_n_accepted :
    full_run (fun _ => 1) (fun _ _ => []) (fun _ _ _ => 1)
      (fun _ _ => ⟨0, 0, 0, 0, 0, 0⟩) paramsW = .ok ⟨[[1]], [], []⟩ ∧
    paramsW.m_edges ≥ (paramsW.n_agents : ℤ) := by
  constructor
  · norm_num [full_run, paramsW, initialize_state_vectors, beta_extended,
      runLoop, Params.toConfig, List.range_succ]
  · norm_num [paramsW]

/-- C2: the run is a deterministic function of the parameter record
(seed included): all pseudo-randomness — graph generation, state
initialization, and every per-event draw — comes from seed-indexed
deterministic streams, so identical parameters and seed give identical
final state matrices and identical history sequences. -/
theorem run_deterministic (rexp : ℚ → ℚ) (nbGen : ℕ → ℕ → List ℕ)
    (raw : ℕ → ℕ → ℕ → ℚ) (tape : ℕ → ℕ → EventDraws) (p1 p2 : Params)
    (h : p1 = p2) :
    full_run rexp nbGen raw tape p1 = full_run rexp nbGen raw tape p2 := by
  rw [h]

/-- C2 witness: two invocations with the identical record `paramsW`. -/
theorem run_deterministic_witness :
    paramsW = paramsW ∧
    full_run (fun _ => 1) (fun _ _ => []) (fun _ _ _ => 1)
      (fun _ _ => ⟨0, 0, 0, 0, 0, 0⟩) paramsW =
    full_run (fun _ => 1) (fun _ _ => []) (fun _ _ _ => 1)
      (fun _ _ => ⟨0, 0, 0, 0, 0, 0⟩) paramsW :=
  ⟨rfl, run_deterministic (fun _ => 1) (fun _ _ => []) (fun _ _ _ => 1)
    (fun _ _ => ⟨0, 0, 0, 0, 0, 0⟩) paramsW paramsW rfl⟩

end CGNew
